import Mathlib

/-!
Verification development for the neural style-transfer core in
`image_style_transfer/style_transfer_model.py`.

Modelling conventions (shallow embedding):
* Floating-point tensors are modelled over `ℚ`.  A tensor of rank 3 is a
  shape triple `(h, w, N)` together with a total function `ℕ → ℕ → ℕ → ℚ`;
  only the values at indices below the shape bounds are ever consumed
  (all sums range over `Finset.range`).
* TensorFlow operations that can fail at graph-construction time
  (shape assertions, incompatible element-wise shapes) return `Except String`.
* `tf.reduce_mean` over an empty tensor yields the float `NaN`; this is
  modelled by returning `Option ℚ` with `none` for the empty case.
* Variable names are modelled as their scope-component lists, so the Python
  substring test `'vgg19' not in v.name` becomes list membership of the
  scope component `"vgg19"`.
-/

namespace StyleTransfer

/-- A rank-3 feature tensor of shape `(h, w, N)` (height, width, channels),
as produced by one VGG layer for a single image.  `data` is total; indices
at or above the bounds are irrelevant. -/
structure FTensor where
  h : ℕ
  w : ℕ
  N : ℕ
  data : ℕ → ℕ → ℕ → ℚ

/-- The shape triple of a feature tensor, used by the `assert`s in the code. -/
def FTensor.shape (t : FTensor) : ℕ × ℕ × ℕ := (t.h, t.w, t.N)

instance : DecidableEq (ℕ × ℕ × ℕ) := inferInstance

instance {ε α : Type} [DecidableEq ε] [DecidableEq α] : DecidableEq (Except ε α) := fun a b =>
  match a, b with
  | Except.ok x, Except.ok y =>
      if h : x = y then Decidable.isTrue (congrArg Except.ok h)
      else Decidable.isFalse (fun e => h ((Except.ok.injEq x y).mp e))
  | Except.ok _, Except.error _ => Decidable.isFalse (fun e => Except.noConfusion e)
  | Except.error _, Except.ok _ => Decidable.isFalse (fun e => Except.noConfusion e)
  | Except.error e, Except.error f =>
      if h : e = f then Decidable.isTrue (congrArg Except.error h)
      else Decidable.isFalse (fun hh => h ((Except.error.injEq e f).mp hh))

/-- `tf.clip_by_value x lo hi`. -/
def clip_by_value (x lo hi : ℚ) : ℚ := min (max x lo) hi

/-- `tf.reshape(activations, (M, N))` of a `(h, w, N)` tensor in row-major
order: row `m` of the result is pixel `(m / w, m % w)` of the input. -/
def reshapeMN (t : FTensor) : ℕ → ℕ → ℚ :=
  fun m n => t.data (m / t.w) (m % t.w) n

/-- `tf.transpose` of a rank-2 tensor. -/
def transpose2 (A : ℕ → ℕ → ℚ) : ℕ → ℕ → ℚ := fun i j => A j i

/-- `tf.matmul A B` where the contracted (inner) dimension has size `K`. -/
def matmul (K : ℕ) (A B : ℕ → ℕ → ℚ) : ℕ → ℕ → ℚ :=
  fun i j => ∑ k ∈ Finset.range K, A i k * B k j

/-- `ClassicStyleTransferModel.gram_matrix`: reshape the `(h, w, N)`
activations to `A : (M, N)` with `M = h*w`, then return `Aᵀ ⬝ A`
(an `(N, N)` matrix). -/
def gram_matrix (t : FTensor) : ℕ → ℕ → ℚ :=
  matmul (t.h * t.w) (transpose2 (reshapeMN t)) (reshapeMN t)

/-- A square matrix with its side length, the shape-carrying value held by
the `style_gram_matrices` variables of `GivenGramMatricesStyleTransferModel`. -/
structure SqMatrix where
  n : ℕ
  entries : ℕ → ℕ → ℚ

/-- The Gram matrix of a feature tensor together with its `(N, N)` shape. -/
def gramOf (t : FTensor) : SqMatrix := ⟨t.N, gram_matrix t⟩

/-- Squared Frobenius distance between two `n × n` matrices
(spec §4.2: the numerator of the per-layer style loss). -/
def frobSqDist (n : ℕ) (A B : ℕ → ℕ → ℚ) : ℚ :=
  ∑ a ∈ Finset.range n, ∑ b ∈ Finset.range n, (A a b - B a b) ^ 2

/-- `ClassicStyleTransferModel.style_layer_loss`: asserts the two feature
tensors share a shape, takes `N` (channels) and `M = h*w` from that shape,
and returns `reduce_sum((G₁ - G₂)²) / (2*N*M)²`.  The failed `assert` is
modelled as `Except.error`. -/
def style_layer_loss (img sty : FTensor) : Except String ℚ :=
  if img.shape = sty.shape then
    Except.ok
      ((∑ a ∈ Finset.range img.N, ∑ b ∈ Finset.range img.N,
          (gram_matrix img a b - gram_matrix sty a b) ^ 2)
        / ((2 * (img.N : ℚ) * ((img.h : ℚ) * (img.w : ℚ))) ^ 2))
  else
    Except.error "assert img_layer_vgg19.shape == style_layer_vgg19.shape"

/-- `GivenGramMatricesStyleTransferModel.style_layer_loss`: computes the
Gram matrix of the image features, asserts its shape matches the supplied
reference Gram matrix, and normalizes by the same `(2*N*M)²`. -/
def given_style_layer_loss (img : FTensor) (g2 : SqMatrix) : Except String ℚ :=
  if img.N = g2.n then
    Except.ok
      ((∑ a ∈ Finset.range img.N, ∑ b ∈ Finset.range img.N,
          (gram_matrix img a b - g2.entries a b) ^ 2)
        / ((2 * (img.N : ℚ) * ((img.h : ℚ) * (img.w : ℚ))) ^ 2))
  else
    Except.error "assert g1.shape == g2.shape"

/-- Element-wise `tf.multiply` of two 1-D tensors under TensorFlow's
broadcasting rules: equal lengths multiply positionally, a length-1 operand
broadcasts against the other, and any other length mismatch is an
incompatible-shapes error raised at graph-construction time. -/
def tf_multiply_1d (xs ws : List ℚ) : Except String (List ℚ) :=
  if xs.length = ws.length then
    Except.ok (List.zipWith (· * ·) xs ws)
  else if ws.length = 1 then
    Except.ok (xs.map (· * ws.headI))
  else if xs.length = 1 then
    Except.ok (ws.map (xs.headI * ·))
  else
    Except.error "incompatible shapes for Mul"

/-- `tf.reduce_sum(tf.multiply(layers_losses, weights))`: the weighted
aggregation step shared by both `calculate_style_loss` variants. -/
def aggregate_style_loss (layers_losses ws : List ℚ) : Except String ℚ :=
  (tf_multiply_1d layers_losses ws).map List.sum

/-- `ClassicStyleTransferModel.calculate_style_loss`, taking the per-layer
VGG features of the synthesized image and of the style image as inputs
(the extractor itself is an external collaborator): per-layer losses from
`zip`ped feature pairs, then the weighted sum. -/
def classic_calculate_style_loss (varFeats styFeats : List FTensor)
    (ws : List ℚ) : Except String ℚ := do
  let losses ← (List.zip varFeats styFeats).mapM
    (fun p => style_layer_loss p.1 p.2)
  aggregate_style_loss losses ws

/-- `GivenGramMatricesStyleTransferModel.calculate_style_loss`: asserts the
feature list and the stored Gram-matrix list have equal lengths, then
per-layer losses against the stored matrices and the same weighted sum. -/
def givengram_calculate_style_loss (varFeats : List FTensor)
    (grams : List SqMatrix) (ws : List ℚ) : Except String ℚ :=
  if varFeats.length = grams.length then do
    let losses ← (List.zip varFeats grams).mapM
      (fun p => given_style_layer_loss p.1 p.2)
    aggregate_style_loss losses ws
  else
    Except.error "assert len(var_image_vgg_features) == len(style_gram_matrices)"

/-- Sum of squared element-wise differences of two feature tensors over the
shape of the first (both always share a shape in the model, where both come
from the same extractor run on same-shaped images). -/
def sq_diff_sum (a b : FTensor) : ℚ :=
  ∑ i ∈ Finset.range a.h, ∑ j ∈ Finset.range a.w, ∑ c ∈ Finset.range a.N,
    (a.data i j c - b.data i j c) ^ 2

/-- `BaseStyleTransferModel.calculate_content_loss`, on the designated
content layer's features of the synthesized image (`varF`) and of the
content image (`contentF`): `size` is `reduce_prod` of the feature shape
(the batch dimension is 1), and the loss is
`(1 / (4*size)) * reduce_sum((varF - contentF)²)`. -/
def calculate_content_loss (varF contentF : FTensor) : ℚ :=
  (1 / (4 * ((varF.h * varF.w * varF.N : ℕ) : ℚ))) * sq_diff_sum varF contentF

/-- Spec-side mean-squared difference of two feature tensors (mean over the
total element count of the first one's shape). -/
def feature_mse (a b : FTensor) : ℚ :=
  sq_diff_sum a b / ((a.h * a.w * a.N : ℕ) : ℚ)

/-- `tf.reduce_mean(img/255., axis=2)`: per-pixel brightness, the mean over
the channel axis of the values pre-divided by 255. -/
def brightness (t : FTensor) : ℕ → ℕ → ℚ :=
  fun i j => (∑ c ∈ Finset.range t.N, t.data i j c / 255) / (t.N : ℚ)

/-- `tf.nn.pool(·, (30,30), AVG, VALID, strides=(30,30))` on a single-channel
map: tile `(ti, tj)` is the average over the 30 × 30 block starting at
`(30*ti, 30*tj)`; with VALID padding the tile grid is `(h/30) × (w/30)`
(integer division, trailing partial tiles dropped). -/
def avg_pool_30 (b : ℕ → ℕ → ℚ) : ℕ → ℕ → ℚ :=
  fun ti tj =>
    (∑ di ∈ Finset.range 30, ∑ dj ∈ Finset.range 30,
      b (30 * ti + di) (30 * tj + dj)) / 900

/-- `BaseStyleTransferModel.calculate_histogram_loss`: brightness maps of
both images, 30 × 30 / stride-30 VALID average pooling of each, then
`reduce_mean` of the squared difference of the pooled maps.  The two images
always share a shape (data-model invariant), so the pooled grids share the
shape `(img.h/30) × (img.w/30)`; `reduce_mean` over an empty pooled grid is
the float `NaN`, modelled as `none`. -/
def calculate_histogram_loss (img content : FTensor) : Option ℚ :=
  if img.h / 30 * (img.w / 30) = 0 then none
  else
    some
      ((∑ ti ∈ Finset.range (img.h / 30), ∑ tj ∈ Finset.range (img.w / 30),
          (avg_pool_30 (brightness img) ti tj
            - avg_pool_30 (brightness content) ti tj) ^ 2)
        / ((img.h / 30 * (img.w / 30) : ℕ) : ℚ))

/-- `BaseStyleTransferModel.vgg_features`, layer selection: the extractor is
a list of `(layer name, layer output)` pairs in the network's own layer
order, and the code keeps `[layer.output for layer in layers if layer.name
in layer_names]` — i.e. the outputs of the layers whose names occur in the
request, in the NETWORK's order. -/
def vgg_features_select {α : Type} (layers : List (String × α))
    (layer_names : List String) : List α :=
  (layers.filter (fun l => layer_names.contains l.1)).map Prod.snd

/-- Modelled from the spec (§4.1 contract): one feature tensor per requested
layer, in the order the names were given — each name looked up in the
network.  Used as the comparison point for the ordering claim. -/
def vgg_features_requested {α : Type} (layers : List (String × α))
    (layer_names : List String) : List α :=
  layer_names.filterMap (fun nm => (layers.find? (fun l => l.1 == nm)).map Prod.snd)

/-- `GivenGramMatricesStyleTransferModel.load_style_gram_matrices`: the loop
`for gm_var, gm in zip(self.style_gram_matrices, gram_matrices): assign` —
each variable paired by `zip` receives the supplied matrix, surplus supplied
matrices are dropped, and variables beyond the supplied list keep their
previous values.  Total: no length check, no error. -/
def load_style_gram_matrices {α : Type} (gm_vars gms : List α) : List α :=
  match gm_vars, gms with
  | [], _ => []
  | vs, [] => vs
  | _ :: vs, g :: gs => g :: load_style_gram_matrices vs gs

/-- A TensorFlow graph variable: its scope-qualified name (modelled as the
list of scope components), its `trainable` flag, and its current tensor
value.  `'vgg19' not in v.name` in the code becomes `"vgg19" ∉ v.name`. -/
structure TFVar where
  name : List String
  trainable : Bool
  value : ℕ → ℕ → ℕ → ℚ

/-- A graph is its list of variables. -/
def Graph : Type := List TFVar

/-- `tf.get_collection(tf.GraphKeys.TRAINABLE_VARIABLES)`. -/
def trainable_variables (g : Graph) : List TFVar :=
  g.filter (fun v => v.trainable)

/-- `vars_to_train = [v for v in TRAINABLE_VARIABLES if 'vgg19' not in v.name]`
(from `BaseStyleTransferModel.build_model`). -/
def vars_to_train (g : Graph) : List TFVar :=
  (trainable_variables g).filter (fun v => !(v.name.contains "vgg19"))

/-- `opt.minimize(loss, var_list=vars_to_train)`: one optimizer update is an
arbitrary per-variable tensor transformation `upd` (Adam's actual update is
opaque here) applied to exactly the variables of `vars_to_train`; every
other variable is untouched. -/
def optimizer_update (upd : (ℕ → ℕ → ℕ → ℚ) → (ℕ → ℕ → ℕ → ℚ))
    (g : Graph) : Graph :=
  g.map (fun v =>
    if v.trainable && !(v.name.contains "vgg19") then
      { v with value := upd v.value }
    else v)

/-- `tf.assign(var_image, tf.clip_by_value(var_image, 0., 255.))`, run under
`tf.control_dependencies([train_op])`, so it reads the post-update value. -/
def clip_op (g : Graph) : Graph :=
  g.map (fun v =>
    if v.name = ["var_image"] then
      { v with value := fun i j c => clip_by_value (v.value i j c) 0 255 }
    else v)

/-- One `step()` = `grouped_train_op`: the optimizer update followed by the
clip of `var_image`. -/
def step (upd : (ℕ → ℕ → ℕ → ℚ) → (ℕ → ℕ → ℕ → ℚ)) (g : Graph) : Graph :=
  clip_op (optimizer_update upd g)

/-- A run of consecutive `step()` calls, one optimizer update per step. -/
def run_steps (upds : List ((ℕ → ℕ → ℕ → ℚ) → (ℕ → ℕ → ℕ → ℚ)))
    (g : Graph) : Graph :=
  upds.foldl (fun g u => step u g) g

/-- The variables created by `BaseStyleTransferModel.__init__`:
`var_image` (a plain `tf.Variable`, trainable by default), the non-trainable
`inputs/input_content`, and the Keras VGG19 variables under scope `vgg19`. -/
def init_graph (img content : ℕ → ℕ → ℕ → ℚ) (vggVars : List TFVar) : Graph :=
  ⟨["var_image"], true, img⟩ :: ⟨["inputs", "input_content"], false, content⟩ :: vggVars

/-- Look a variable up by name. -/
def get_variable (g : Graph) (nm : List String) : Option TFVar :=
  g.find? (fun v => v.name = nm)

/-- `BaseStyleTransferModel.generate_noisy_image`: blends a noise image with
the content image by `noise_r` and clips into `[0, 255]`.  The random noise
tensor is an arbitrary parameter here. -/
def generate_noisy_image (noise image : ℕ → ℕ → ℕ → ℚ) (r : ℚ) :
    ℕ → ℕ → ℕ → ℚ :=
  fun i j c => clip_by_value (noise i j c * r + image i j c * (1 - r)) 0 255

/-- All pixel values of a tensor lie in `[0, 255]`. -/
def in_pixel_range (t : ℕ → ℕ → ℕ → ℚ) : Prop :=
  ∀ i j c, 0 ≤ t i j c ∧ t i j c ≤ 255

/-- The per-variable effect of one `step()` on the clipped image variable,
used to state the result of a run of steps in closed form. -/
def iter_clip_updates : List ((ℕ → ℕ → ℕ → ℚ) → (ℕ → ℕ → ℕ → ℚ)) →
    (ℕ → ℕ → ℕ → ℚ) → (ℕ → ℕ → ℕ → ℚ)
  | [], x => x
  | u :: us, x => iter_clip_updates us (fun i j c => clip_by_value (u x i j c) 0 255)

/-- Concrete 1 × 1 × 1 feature tensor used by witnesses. -/
def wT1 : FTensor := ⟨1, 1, 1, fun _ _ _ => 2⟩

/-- Second concrete 1 × 1 × 1 feature tensor used by witnesses. -/
def wT2 : FTensor := ⟨1, 1, 1, fun _ _ _ => 3⟩

/-! ## Helper lemmas -/

theorem clip_by_value_mem (x : ℚ) : 0 ≤ clip_by_value x 0 255 ∧ clip_by_value x 0 255 ≤ 255 := by
  unfold clip_by_value
  constructor
  · exact le_min (le_max_right x 0) (by norm_num)
  · exact min_le_right _ _

theorem style_layer_loss_self (t : FTensor) : style_layer_loss t t = Except.ok 0 := by
  rw [style_layer_loss, if_pos rfl]
  simp [sub_self, zero_pow]

/-! ## Claim theorems -/

/-- Claim C5: the Gram matrix of a feature tensor of shape `(h, w, N)` is
`Aᵀ ⬝ A` for `A` the `(M, N)` row-major reshape with `M = h*w` (stated
entrywise), it carries the shape `(N, N)`, and it is symmetric. -/
theorem gram_matrix_spec (t : FTensor) :
    (∀ a b, gram_matrix t a b
        = ∑ m ∈ Finset.range (t.h * t.w), reshapeMN t m a * reshapeMN t m b)
    ∧ (gramOf t).n = t.N
    ∧ ∀ a b, gram_matrix t a b = gram_matrix t b a := by
  refine ⟨fun a b => rfl, rfl, fun a b => ?_⟩
  unfold gram_matrix matmul transpose2
  exact Finset.sum_congr rfl (fun k _ => mul_comm _ _)

/-- Claim C3: for feature tensors of equal shape `(h, w, N)` with
`M = h*w`, the per-layer style loss is the squared Frobenius distance of
the two Gram matrices divided by `(2*N*M)²`; for identical feature tensors
it is exactly 0. -/
theorem style_layer_loss_spec (img sty : FTensor) (h : img.shape = sty.shape) :
    style_layer_loss img sty
      = Except.ok (frobSqDist img.N (gram_matrix img) (gram_matrix sty)
          / ((2 * (img.N : ℚ) * ((img.h : ℚ) * (img.w : ℚ))) ^ 2))
    ∧ style_layer_loss img img = Except.ok 0 := by
  constructor
  · rw [style_layer_loss, if_pos h]; rfl
  · exact style_layer_loss_self img

/-- Witness for C3 at two concrete equal-shape tensors. -/
theorem style_layer_loss_spec_witness :
    wT1.shape = wT2.shape ∧
      (style_layer_loss wT1 wT2
        = Except.ok (frobSqDist wT1.N (gram_matrix wT1) (gram_matrix wT2)
            / ((2 * (wT1.N : ℚ) * ((wT1.h : ℚ) * (wT1.w : ℚ))) ^ 2))
      ∧ style_layer_loss wT1 wT1 = Except.ok 0) :=
  ⟨rfl, style_layer_loss_spec wT1 wT2 rfl⟩

/-- Claim C4: the content loss is `(1/(4*size)) * Σ (varF - contentF)²`
with `size` the element count of the designated layer's feature tensor;
equivalently a quarter of the mean-squared feature difference when the
tensor is non-empty, and exactly 0 when the two feature tensors coincide. -/
theorem calculate_content_loss_spec (varF contentF : FTensor) :
    calculate_content_loss varF contentF
      = 1 / (4 * ((varF.h * varF.w * varF.N : ℕ) : ℚ)) * sq_diff_sum varF contentF
    ∧ (0 < varF.h * varF.w * varF.N →
        calculate_content_loss varF contentF = feature_mse varF contentF / 4)
    ∧ (contentF = varF → calculate_content_loss varF contentF = 0) := by
  refine ⟨rfl, fun hpos => ?_, fun heq => ?_⟩
  · have hs : ((varF.h * varF.w * varF.N : ℕ) : ℚ) ≠ 0 :=
      ne_of_gt (by exact_mod_cast hpos)
    rw [calculate_content_loss, feature_mse]
    field_simp
    ring
  · rw [heq]
    have hz : sq_diff_sum varF varF = 0 := by
      simp [sq_diff_sum, sub_self, zero_pow]
    rw [calculate_content_loss, hz, mul_zero]

/-- Witness for C4 at two concrete tensors. -/
theorem calculate_content_loss_spec_witness :
    (calculate_content_loss wT1 wT2
      = 1 / (4 * ((wT1.h * wT1.w * wT1.N : ℕ) : ℚ)) * sq_diff_sum wT1 wT2)
    ∧ calculate_content_loss wT1 wT2 = feature_mse wT1 wT2 / 4
    ∧ calculate_content_loss wT1 wT1 = 0 :=
  ⟨(calculate_content_loss_spec wT1 wT2).1,
   (calculate_content_loss_spec wT1 wT2).2.1 (by decide),
   (calculate_content_loss_spec wT1 wT1).2.2 rfl⟩

/-- Concrete 1 × 1 × 3 image, smaller than one 30 × 30 pooling tile. -/
def wSmallImg : FTensor := ⟨1, 1, 3, fun _ _ _ => 100⟩

/-- Concrete 30 × 30 × 3 image, exactly one pooling tile. -/
def wBigImg : FTensor := ⟨30, 30, 3, fun _ _ _ => 7⟩

/-- Claim C7 counterexample: on a 1 × 1 image the 30 × 30 VALID pooling
grid is empty, so `reduce_mean` over it is NaN (modelled `none`), not 0. -/
theorem histogram_loss_small_cex :
    calculate_histogram_loss wSmallImg wSmallImg = none
    ∧ calculate_histogram_loss wSmallImg wSmallImg ≠ some 0 := by
  constructor <;> decide

/-- Claim C7 (amended): for an image at least 30 pixels tall and wide, the
histogram/brightness loss of the image against itself is 0; smaller images
yield an empty pooled map whose mean is NaN. -/
theorem histogram_loss_self_zero (img : FTensor)
    (hh : 30 ≤ img.h) (hw : 30 ≤ img.w) :
    calculate_histogram_loss img img = some 0 := by
  have h1 : img.h / 30 ≠ 0 := by
    have := Nat.div_pos hh (by norm_num : (0:ℕ) < 30)
    omega
  have h2 : img.w / 30 ≠ 0 := by
    have := Nat.div_pos hw (by norm_num : (0:ℕ) < 30)
    omega
  rw [calculate_histogram_loss, if_neg (Nat.mul_ne_zero h1 h2)]
  simp [sub_self, zero_pow]

/-- Witness for C7's amended theorem at a concrete 30 × 30 image. -/
theorem histogram_loss_self_zero_witness :
    30 ≤ wBigImg.h ∧ 30 ≤ wBigImg.w
    ∧ calculate_histogram_loss wBigImg wBigImg = some 0 :=
  ⟨by decide, by decide, histogram_loss_self_zero wBigImg (by decide) (by decide)⟩

/-- Claim C6 counterexample: two configured style layers with a single
weight do NOT raise: `tf.multiply` broadcasts the lone weight, and the
aggregate style loss is produced silently. -/
theorem aggregate_mismatch_broadcast_cex :
    [wT1, wT2].length ≠ [(3 : ℚ)].length
    ∧ classic_calculate_style_loss [wT1, wT2] [wT1, wT2] [(3 : ℚ)] = Except.ok 0 := by
  refine ⟨by decide, ?_⟩
  have hmap : (List.zip [wT1, wT2] [wT1, wT2]).mapM
      (fun p => style_layer_loss p.1 p.2) = Except.ok [0, 0] := by
    rw [show List.zip [wT1, wT2] [wT1, wT2] = [(wT1, wT1), (wT2, wT2)] from rfl,
      List.mapM_cons, List.mapM_cons, List.mapM_nil]
    simp [style_layer_loss_self]
    rfl
  rw [classic_calculate_style_loss, hmap]
  show aggregate_style_loss [0, 0] [3] = Except.ok 0
  rw [aggregate_style_loss, tf_multiply_1d]
  norm_num [List.headI, Except.map]

/-- Claim C6 (amended): with equal lengths the aggregate style loss is the
positionally weighted sum of the per-layer losses; with mismatched lengths
it is an incompatible-shapes configuration error, unless one of the lists
has length 1, in which case TensorFlow broadcasting silently applies the
lone element across the other list. -/
theorem aggregate_style_loss_spec (xs ws : List ℚ) :
    (xs.length = ws.length →
      aggregate_style_loss xs ws = Except.ok (List.zipWith (· * ·) xs ws).sum)
    ∧ (xs.length ≠ ws.length → ws.length ≠ 1 → xs.length ≠ 1 →
      aggregate_style_loss xs ws = Except.error "incompatible shapes for Mul")
    ∧ (xs.length ≠ ws.length → ∀ w, ws = [w] →
      aggregate_style_loss xs ws = Except.ok (xs.map (· * w)).sum)
    ∧ (xs.length ≠ ws.length → ws.length ≠ 1 → ∀ x, xs = [x] →
      aggregate_style_loss xs ws = Except.ok (ws.map (x * ·)).sum) := by
  refine ⟨fun h => ?_, fun h hw hx => ?_, fun h w hweq => ?_, fun h hw x hxeq => ?_⟩
  · rw [aggregate_style_loss, tf_multiply_1d, if_pos h]; rfl
  · rw [aggregate_style_loss, tf_multiply_1d, if_neg h, if_neg hw, if_neg hx]; rfl
  · subst hweq
    rw [aggregate_style_loss, tf_multiply_1d, if_neg h]
    simp [List.headI, Except.map]
  · subst hxeq
    rw [aggregate_style_loss, tf_multiply_1d, if_neg h, if_neg hw]
    simp [List.headI, Except.map]

/-- Witness for C6's amended theorem at concrete weight lists. -/
theorem aggregate_style_loss_spec_witness :
    aggregate_style_loss [(1 : ℚ), 2] [3, 4]
      = Except.ok (List.zipWith (· * ·) [(1 : ℚ), 2] [3, 4]).sum
    ∧ aggregate_style_loss [(1 : ℚ), 2] [3, 4, 5]
      = Except.error "incompatible shapes for Mul" :=
  ⟨(aggregate_style_loss_spec [1, 2] [3, 4]).1 rfl,
   (aggregate_style_loss_spec [1, 2] [3, 4, 5]).2.1
     (by decide) (by decide) (by decide)⟩

theorem style_layer_loss_eq_given (a b : FTensor) (h : a.shape = b.shape) :
    style_layer_loss a b = given_style_layer_loss a (gramOf b) := by
  have hN : a.N = b.N := congrArg (fun s => s.2.2) h
  rw [style_layer_loss, given_style_layer_loss, if_pos h,
    if_pos (show a.N = (gramOf b).n from hN)]
  rfl

/-- Claim C2: on the same synthesized-image features and the same weights,
the live-style variant's style loss from the style image's features equals
the precomputed-Gram variant's style loss when the latter is pre-loaded with
exactly the Gram matrices of those style features (exact equality in the
rational model; floating tolerance in the implementation). -/
theorem style_loss_variants_agree (varFeats styFeats : List FTensor) (ws : List ℚ)
    (h : List.Forall₂ (fun a b => a.shape = b.shape) varFeats styFeats) :
    classic_calculate_style_loss varFeats styFeats ws
      = givengram_calculate_style_loss varFeats (styFeats.map gramOf) ws := by
  have hm : ∀ (v s : List FTensor), List.Forall₂ (fun a b => a.shape = b.shape) v s →
      (List.zip v s).mapM (fun p => style_layer_loss p.1 p.2)
        = (List.zip v (s.map gramOf)).mapM
            (fun p => given_style_layer_loss p.1 p.2) := by
    intro v s hvs
    induction hvs with
    | nil => rfl
    | cons hab htail ih =>
        simp only [List.map_cons, List.zip_cons_cons, List.mapM_cons, ih,
          style_layer_loss_eq_given _ _ hab]
  have hlen : varFeats.length = (styFeats.map gramOf).length := by
    rw [List.length_map]; exact h.length_eq
  rw [givengram_calculate_style_loss, if_pos hlen, classic_calculate_style_loss,
    hm varFeats styFeats h]

/-- Witness for C2 at concrete one-layer feature lists. -/
theorem style_loss_variants_agree_witness :
    classic_calculate_style_loss [wT1] [wT2] [5]
      = givengram_calculate_style_loss [wT1] ([wT2].map gramOf) [5] :=
  style_loss_variants_agree [wT1] [wT2] [5]
    (List.Forall₂.cons rfl List.Forall₂.nil)

theorem vgg_features_requested_cons {α : Type} (L : List (String × α))
    (n : String) (ns : List String) :
    vgg_features_requested L (n :: ns)
      = match (L.find? (fun l => l.1 == n)).map Prod.snd with
        | none => vgg_features_requested L ns
        | some b => b :: vgg_features_requested L ns := by
  rw [vgg_features_requested, List.filterMap_cons]
  rfl

theorem vgg_features_requested_skip {α : Type} (p : String × α)
    (rest : List (String × α)) (names : List String)
    (h : ∀ n ∈ names, p.1 ≠ n) :
    vgg_features_requested (p :: rest) names
      = vgg_features_requested rest names := by
  induction names with
  | nil => rfl
  | cons n ns ih =>
      have hb : (p.1 == n) = false :=
        beq_eq_false_iff_ne.mpr (h n (List.mem_cons_self n ns))
      rw [vgg_features_requested_cons, vgg_features_requested_cons,
        List.find?_cons]
      simp only [hb]
      rw [ih (fun n hn => h n (List.mem_cons_of_mem _ hn))]

theorem vgg_features_select_skip_name {α : Type} (layers : List (String × α))
    (nm : String) (names : List String)
    (h : ∀ l ∈ layers, l.1 ≠ nm) :
    vgg_features_select layers (nm :: names)
      = vgg_features_select layers names := by
  unfold vgg_features_select
  rw [List.filter_congr]
  intro l hl
  have hb : (l.1 == nm) = false := beq_eq_false_iff_ne.mpr (h l hl)
  simp only [List.contains_cons, hb, Bool.false_or]

/-- Concrete two-layer extractor used in the C8 counterexample and witness. -/
def cexLayers : List (String × ℕ) := [("a", 0), ("b", 1)]

/-- Claim C8 counterexample: requesting `["b", "a"]` from a network whose
layer order is `a, b` returns the features in network order `[a's, b's]`,
not in the requested order `[b's, a's]`. -/
theorem vgg_features_order_cex :
    vgg_features_select cexLayers ["b", "a"]
        ≠ vgg_features_requested cexLayers ["b", "a"]
    ∧ vgg_features_select cexLayers ["b", "a"] = [0, 1]
    ∧ vgg_features_requested cexLayers ["b", "a"] = [1, 0] := by
  refine ⟨by decide, by decide, by decide⟩

/-- Claim C8 (amended): the extraction returns one feature tensor per model
layer whose name occurs in the request, in the model's own layer order;
when the requested names are listed in model order (a sublist of the
model's distinct layer names) this coincides with one tensor per requested
layer in the order given. -/
theorem vgg_features_select_spec {α : Type} (layers : List (String × α))
    (names : List String)
    (hnd : (layers.map Prod.fst).Nodup)
    (hsub : List.Sublist names (layers.map Prod.fst)) :
    vgg_features_select layers names = vgg_features_requested layers names := by
  induction layers generalizing names with
  | nil =>
      have : names = [] := List.sublist_nil.mp hsub
      subst this; rfl
  | cons p rest ih =>
      rw [List.map_cons] at hsub hnd
      have hp : p.1 ∉ rest.map Prod.fst := (List.nodup_cons.mp hnd).1
      have hnd' : (rest.map Prod.fst).Nodup := (List.nodup_cons.mp hnd).2
      have hrestne : ∀ l ∈ rest, l.1 ≠ p.1 := by
        intro l hl hne
        exact hp (hne ▸ List.mem_map_of_mem Prod.fst hl)
      rcases List.sublist_cons_iff.mp hsub with hcase | ⟨t, rfl, ht⟩
      · have hnmem : p.1 ∉ names := fun hmem => hp (hcase.subset hmem)
        have hcont : names.contains p.1 = false := by
          simpa using hnmem
        rw [vgg_features_select, List.filter_cons]
        simp only [hcont, Bool.false_eq_true, if_false]
        rw [show (rest.filter (fun l => names.contains l.1)).map Prod.snd
              = vgg_features_select rest names from rfl,
          ih names hnd' hcase,
          vgg_features_requested_skip p rest names
            (fun n hn hne => hnmem (hne ▸ hn))]
      · have hcont : (p.1 :: t).contains p.1 = true := by simp
        have htforall : ∀ n ∈ t, p.1 ≠ n := by
          intro n hn hne
          exact hp (hne ▸ ht.subset hn)
        rw [vgg_features_select, List.filter_cons]
        simp only [hcont, if_true, List.map_cons]
        rw [show (rest.filter (fun l => (p.1 :: t).contains l.1)).map Prod.snd
              = vgg_features_select rest (p.1 :: t) from rfl,
          vgg_features_select_skip_name rest p.1 t hrestne,
          ih t hnd' ht,
          vgg_features_requested_cons (p :: rest) p.1 t, List.find?_cons]
        simp only [beq_self_eq_true]
        rw [vgg_features_requested_skip p rest t htforall]
        rfl

/-- Witness for C8's amended theorem: requesting `["a", "b"]` in model
order returns the two features in that order. -/
theorem vgg_features_select_spec_witness :
    (cexLayers.map Prod.fst).Nodup
    ∧ List.Sublist ["a", "b"] (cexLayers.map Prod.fst)
    ∧ vgg_features_select cexLayers ["a", "b"]
        = vgg_features_requested cexLayers ["a", "b"] :=
  ⟨by decide, by decide,
   vgg_features_select_spec cexLayers ["a", "b"] (by decide) (by decide)⟩

theorem step_cons_var_image (u : (ℕ → ℕ → ℕ → ℚ) → (ℕ → ℕ → ℕ → ℚ))
    (x : ℕ → ℕ → ℕ → ℚ) (rest : List TFVar) :
    step u (⟨["var_image"], true, x⟩ :: rest)
      = ⟨["var_image"], true, fun i j c => clip_by_value (u x i j c) 0 255⟩
        :: step u rest := by
  simp +decide only [step, optimizer_update, clip_op, List.map_cons,
    if_true, if_false]

theorem run_steps_cons_var_image
    (upds : List ((ℕ → ℕ → ℕ → ℚ) → (ℕ → ℕ → ℕ → ℚ))) :
    ∀ (x : ℕ → ℕ → ℕ → ℚ) (rest : List TFVar), ∃ rest',
      run_steps upds (⟨["var_image"], true, x⟩ :: rest)
        = ⟨["var_image"], true, iter_clip_updates upds x⟩ :: rest' := by
  induction upds with
  | nil => exact fun x rest => ⟨rest, rfl⟩
  | cons u us ih =>
      intro x rest
      show ∃ rest', run_steps us (step u (⟨["var_image"], true, x⟩ :: rest)) = _
      rw [step_cons_var_image]
      exact ih _ _

theorem iter_clip_preserves_range
    (us : List ((ℕ → ℕ → ℕ → ℚ) → (ℕ → ℕ → ℕ → ℚ))) :
    ∀ x, in_pixel_range x → in_pixel_range (iter_clip_updates us x) := by
  induction us with
  | nil => exact fun x hx => hx
  | cons u us ih =>
      intro x _
      exact ih _ (fun i j c => clip_by_value_mem _)

theorem iter_clip_range_of_ne_nil
    (upds : List ((ℕ → ℕ → ℕ → ℚ) → (ℕ → ℕ → ℕ → ℚ)))
    (h : upds ≠ []) (x : ℕ → ℕ → ℕ → ℚ) :
    in_pixel_range (iter_clip_updates upds x) := by
  rcases upds with _ | ⟨u, us⟩
  · exact absurd rfl h
  · exact iter_clip_preserves_range us _ (fun i j c => clip_by_value_mem _)

/-- Claim C1: the synthesized image produced by `initialize_var_image` is
already clipped into `[0, 255]`, and after any nonempty sequence of
`step()` calls — each an arbitrary optimizer update followed by the clip —
every pixel value of the `var_image` variable lies in `[0, 255]`, whatever
the initial image (even one out of range) and whatever the updates do. -/
theorem step_clip_invariant (img content noise : ℕ → ℕ → ℕ → ℚ) (r : ℚ)
    (vggVars : List TFVar)
    (upds : List ((ℕ → ℕ → ℕ → ℚ) → (ℕ → ℕ → ℕ → ℚ))) (hne : upds ≠ []) :
    in_pixel_range (generate_noisy_image noise img r)
    ∧ ∃ v, get_variable (run_steps upds (init_graph img content vggVars))
          ["var_image"] = some v
        ∧ in_pixel_range v.value := by
  constructor
  · exact fun i j c => clip_by_value_mem _
  · obtain ⟨rest', hrest⟩ := run_steps_cons_var_image upds img
      (⟨["inputs", "input_content"], false, content⟩ :: vggVars)
    refine ⟨⟨["var_image"], true, iter_clip_updates upds img⟩, ?_,
      iter_clip_range_of_ne_nil upds hne img⟩
    rw [show init_graph img content vggVars
          = ⟨["var_image"], true, img⟩
            :: ⟨["inputs", "input_content"], false, content⟩ :: vggVars from rfl,
      hrest, get_variable, List.find?_cons]
    norm_num

/-- Concrete optimizer update used in the C1 witness: shifts every pixel
far out of range, so only the clip can restore the invariant. -/
def wUpd : (ℕ → ℕ → ℕ → ℚ) → (ℕ → ℕ → ℕ → ℚ) :=
  fun t i j c => t i j c + 1000

/-- Witness for C1 at a concrete out-of-range start and one step. -/
theorem step_clip_invariant_witness :
    ([wUpd] : List ((ℕ → ℕ → ℕ → ℚ) → (ℕ → ℕ → ℕ → ℚ))) ≠ []
    ∧ (in_pixel_range (generate_noisy_image (fun _ _ _ => 0) (fun _ _ _ => 300) (6/10))
      ∧ ∃ v, get_variable (run_steps [wUpd]
            (init_graph (fun _ _ _ => 300) (fun _ _ _ => 5) [])) ["var_image"] = some v
          ∧ in_pixel_range v.value) :=
  ⟨List.cons_ne_nil _ _,
   step_clip_invariant (fun _ _ _ => 300) (fun _ _ _ => 5) (fun _ _ _ => 0) (6/10)
     [] [wUpd] (List.cons_ne_nil _ _)⟩

/-- Concrete extractor variable under the `vgg19` scope. -/
def wVggVar : TFVar := ⟨["vgg19", "block1_conv1", "kernel"], true, fun _ _ _ => 1⟩

/-- The graph built by `GivenGramMatricesStyleTransferModel.__init__`: the
base-class variables plus one `tf.Variable` per style layer holding the
reference Gram matrices.  These are created after the `vgg19` and `inputs`
scopes have closed and — unlike `inputs/input_content` — WITHOUT
`trainable=False`. -/
def givengram_init_graph (img content : ℕ → ℕ → ℕ → ℚ)
    (vggVars gramVars : List TFVar) : Graph :=
  List.append (init_graph img content vggVars) gramVars

/-- One zero-initialized reference Gram-matrix variable of the
precomputed-Gram variant, with its auto-generated scope-free name and the
default `trainable = true`. -/
def wGramVar : TFVar := ⟨["Variable_1"], true, fun _ _ _ => 0⟩

/-- Claim C9 fails on the code for the precomputed-Gram variant: the
reference Gram variables are trainable and their names do not contain
`vgg19`, so `vars_to_train` holds them besides `var_image`, and one
`step()` rewrites the loaded Gram matrix by the optimizer update (here
from 0 to 1000 at entry (0,0,0)) — the step does not update only the
synthesized image. -/
theorem step_updates_gram_reference_vars :
    vars_to_train (givengram_init_graph (fun _ _ _ => 10) (fun _ _ _ => 5)
        [wVggVar] [wGramVar])
      = [⟨["var_image"], true, fun _ _ _ => 10⟩, wGramVar]
    ∧ get_variable
        (step wUpd (givengram_init_graph (fun _ _ _ => 10) (fun _ _ _ => 5)
          [wVggVar] [wGramVar])) ["Variable_1"]
        = some ⟨["Variable_1"], true, wUpd (fun _ _ _ => 0)⟩
    ∧ wUpd (fun _ _ _ => 0) 0 0 0 ≠ wGramVar.value 0 0 0 := by
  refine ⟨?_, ?_, ?_⟩
  · simp +decide only [givengram_init_graph, init_graph, wVggVar, wGramVar,
      vars_to_train, trainable_variables, List.append_eq, List.cons_append,
      List.nil_append, List.filter_cons, List.filter_nil, if_true, if_false]
  · simp +decide only [givengram_init_graph, init_graph, wVggVar, wGramVar,
      step, optimizer_update, clip_op, get_variable, wUpd,
      List.append_eq, List.cons_append, List.nil_append,
      List.map_cons, List.map_nil, List.find?_cons, if_true, if_false,
      decide_True, decide_False]
  · show (0 : ℚ) + 1000 ≠ 0
    norm_num

/-- Claim C10: loading `k` supplied Gram matrices into `n` configured
reference variables never raises — the `zip` silently pairs the first
`min k n` positions: those variables take the supplied matrices, surplus
supplied matrices are ignored (result length stays `n`), and variables past
the supplied list keep their previous values. -/
theorem load_style_gram_matrices_spec {α : Type} (vs gms : List α) :
    (load_style_gram_matrices vs gms).length = vs.length
    ∧ (∀ i, i < min vs.length gms.length →
        (load_style_gram_matrices vs gms).get? i = gms.get? i)
    ∧ (∀ i, gms.length ≤ i →
        (load_style_gram_matrices vs gms).get? i = vs.get? i) := by
  induction vs generalizing gms with
  | nil =>
      refine ⟨?_, fun i hi => ?_, fun i _ => ?_⟩
      · cases gms <;> rfl
      · simp only [List.length_nil] at hi
        omega
      · cases gms <;> rfl
  | cons v vs ih =>
      cases gms with
      | nil =>
          refine ⟨rfl, fun i hi => ?_, fun i _ => rfl⟩
          simp only [List.length_nil] at hi
          omega
      | cons g gs =>
          refine ⟨?_, fun i hi => ?_, fun i hi => ?_⟩
          · show (g :: load_style_gram_matrices vs gs).length = (v :: vs).length
            simp [(ih gs).1]
          · cases i with
            | zero => rfl
            | succ i =>
                exact (ih gs).2.1 i (by
                  simp only [List.length_cons] at hi
                  omega)
          · cases i with
            | zero => exact absurd hi (by simp)
            | succ i =>
                exact (ih gs).2.2 i (by
                  simp only [List.length_cons] at hi
                  omega)

/-- Witness for C10: three variables, one supplied matrix — position 0 is
assigned, positions 1 and 2 keep their previous values, no error. -/
theorem load_style_gram_matrices_spec_witness :
    (load_style_gram_matrices [(10 : ℚ), 20, 30] [9]).length = 3
    ∧ (load_style_gram_matrices [(10 : ℚ), 20, 30] [9]).get? 0 = List.get? [(9 : ℚ)] 0
    ∧ (load_style_gram_matrices [(10 : ℚ), 20, 30] [9]).get? 2
        = List.get? [(10 : ℚ), 20, 30] 2 :=
  ⟨(load_style_gram_matrices_spec [(10 : ℚ), 20, 30] [9]).1,
   (load_style_gram_matrices_spec [(10 : ℚ), 20, 30] [9]).2.1 0 (by decide),
   (load_style_gram_matrices_spec [(10 : ℚ), 20, 30] [9]).2.2 2 (by decide)⟩

end StyleTransfer
